import Mathlib

/-!
Shallow embedding of `kvdb-rocksdb/src/lib.rs` (the `Database` facade over a
RocksDB-like engine with a two-generation write buffer).

Keys and values are byte sequences, modelled as `List Nat`.  The per-column
mutation logs (`HashMap<ElasticArray32<u8>, KeyState>` in the source) are
modelled as association lists with at-most-one entry per key, maintained by
`insertKV` (insert-or-replace) and `eraseKV` (remove).  The RocksDB engine is
modelled by `Engine`: the default column's contents, the list of column-family
contents (the source's `cfs` handle list together with the data those handles
reach), and a `failure` oracle: when `failure = some msg` every fallible engine
call returns `Err(msg)`, when `failure = none` engine calls succeed.  The
`CORRUPTED` marker file in the database directory is modelled by the boolean
field `corruption_marker`.
-/

abbrev Key := List Nat

abbrev Value := List Nat

/-- `KeyState` from the source: an overlay entry is either a buffered insert or
a tombstone. -/
inductive KeyState where
  | Insert (v : Value)
  | Delete
deriving DecidableEq

/-- One mutation log (`HashMap<key, KeyState>` in the source). -/
abbrev MLog := List (Key × KeyState)

/-- Insert-or-replace into an association list (`HashMap::insert`). -/
def insertKV {α : Type} (m : List (Key × α)) (k : Key) (v : α) : List (Key × α) :=
  (k, v) :: m.filter (fun e => e.1 != k)

/-- Remove a key from an association list (`HashMap::remove`). -/
def eraseKV {α : Type} (m : List (Key × α)) (k : Key) : List (Key × α) :=
  m.filter (fun e => e.1 != k)

/-- A batched engine operation: `WriteBatch::put/put_cf/delete/delete_cf`.
Slot 0 is the default column, slot `c + 1` is column family `c` (matching
`to_overlay_column`). -/
inductive BatchOp where
  | put (slot : Nat) (key : Key) (value : Value)
  | del (slot : Nat) (key : Key)
deriving DecidableEq

/-- The backing RocksDB engine (`DBAndColumns` plus the on-disk state its
handles reach).  `failure` is the oracle for engine-level errors: fallible
engine calls fail with `msg` exactly when `failure = some msg`. -/
structure Engine where
  default_col : List (Key × Value)
  cfs : List (List (Key × Value))
  failure : Option String
deriving DecidableEq

/-- Contents of one column (`None` is the default column). -/
def Engine.colData (e : Engine) (col : Option Nat) : List (Key × Value) :=
  match col with
  | none => e.default_col
  | some c => e.cfs.getD c []

/-- `db.get_opt` / `db.get_cf_opt`: point lookup in the engine. -/
def Engine.get_opt (e : Engine) (col : Option Nat) (k : Key) : Except String (Option Value) :=
  match e.failure with
  | some msg => Except.error msg
  | none => Except.ok (List.lookup k (e.colData col))

/-- Apply one batched operation to the engine state. -/
def Engine.applyOp (e : Engine) : BatchOp → Engine
  | BatchOp.put 0 k v => { e with default_col := insertKV e.default_col k v }
  | BatchOp.put (c + 1) k v => { e with cfs := e.cfs.set c (insertKV (e.cfs.getD c []) k v) }
  | BatchOp.del 0 k => { e with default_col := eraseKV e.default_col k }
  | BatchOp.del (c + 1) k => { e with cfs := e.cfs.set c (eraseKV (e.cfs.getD c []) k) }

/-- Apply a whole batch atomically. -/
def Engine.applyBatch (e : Engine) (b : List BatchOp) : Engine :=
  b.foldl Engine.applyOp e

/-- `db.write_opt(batch, ...)`: atomic batch commit, fallible. -/
def Engine.write_opt (e : Engine) (b : List BatchOp) : Except String Engine :=
  match e.failure with
  | some msg => Except.error msg
  | none => Except.ok (e.applyBatch b)

/-- `db.create_cf(...)`: create the next column family (empty), fallible. -/
def Engine.create_cf (e : Engine) : Except String Engine :=
  match e.failure with
  | some msg => Except.error msg
  | none => Except.ok { e with cfs := e.cfs ++ [[]] }

/-- `db.drop_cf(name)`: drop a column family, fallible.  The data removal is
accounted for in `DBState.drop_column` (popping `cfs` drops handle and data
together in this model). -/
def Engine.drop_cf (e : Engine) : Except String Unit :=
  match e.failure with
  | some msg => Except.error msg
  | none => Except.ok ()

/-- `DBOp` from the `kvdb` crate: one transaction operation. -/
inductive DBOp where
  | Insert (col : Option Nat) (key : Key) (value : Value)
  | Delete (col : Option Nat) (key : Key)
deriving DecidableEq

def DBOp.col : DBOp → Option Nat
  | DBOp.Insert c _ _ => c
  | DBOp.Delete c _ => c

def DBOp.key : DBOp → Key
  | DBOp.Insert _ k _ => k
  | DBOp.Delete _ k => k

/-- `Database::to_overlay_column`: the overlay slot of a column id. -/
def to_overlay_column (col : Option Nat) : Nat :=
  match col with
  | none => 0
  | some c => c + 1

/-- Translation of a transaction op into the batch op `Database::write`
builds for it (default column for `None`, cf `c` for `Some c`). -/
def DBOp.toBatchOp : DBOp → BatchOp
  | DBOp.Insert col k v => BatchOp.put (to_overlay_column col) k v
  | DBOp.Delete col k => BatchOp.del (to_overlay_column col) k

/-- The `Database` state: engine handle (`None` once closed), the two
generations of mutation logs, the single-flusher guard, and the presence of
the `CORRUPTED` marker file in the database directory. -/
structure DBState where
  db : Option Engine
  overlay : List MLog
  flushing : List MLog
  flushing_lock : Bool
  corruption_marker : Bool
deriving DecidableEq

/-- Replace slot `c` of a log vector by `f` of its current contents
(`overlay[c] = f(overlay[c])`). -/
def updateSlot (logs : List MLog) (c : Nat) (f : MLog → MLog) : List MLog :=
  logs.set c (f (logs.getD c []))

/-- One step of the `Database::write_buffered` loop: record one op into the
overlay log of its slot. -/
def bufferOp (logs : List MLog) : DBOp → List MLog
  | DBOp.Insert col k v =>
      updateSlot logs (to_overlay_column col) (fun m => insertKV m k (KeyState.Insert v))
  | DBOp.Delete col k =>
      updateSlot logs (to_overlay_column col) (fun m => insertKV m k KeyState.Delete)

/-- `Database::write_buffered`: record every op of the transaction into the
overlay log of its slot; never touches the engine, never fails. -/
def DBState.write_buffered (s : DBState) (tr : List DBOp) : DBState :=
  { s with overlay := tr.foldl bufferOp s.overlay }

/-- The string the source tests engine errors against (`"Corruption:"`). -/
def corruptionSignature : String := "Corruption:"

/-- `s.starts_with("Corruption:")` over the character sequence of `s`. -/
def isCorruptionMsg (msg : String) : Bool :=
  corruptionSignature.data.isPrefixOf msg.data

/-- `check_for_corruption(path, res)`: on an engine error whose message starts
with the corruption signature, create the `CORRUPTED` marker file (modelled:
set the marker bit) before propagating the error. -/
def check_for_corruption {α : Type} (marker : Bool) (res : Except String α) :
    Bool × Except String α :=
  match res with
  | Except.error s => ((marker || isCorruptionMsg s), Except.error s)
  | Except.ok a => (marker, Except.ok a)

/-- The overlay-eviction loop of `Database::write`: for every op of the
transaction, remove any buffered entry for its key from its slot. -/
def removeOps (logs : List MLog) : List DBOp → List MLog
  | [] => logs
  | op :: rest =>
      removeOps (updateSlot logs (to_overlay_column op.col) (fun m => eraseKV m op.key)) rest

/-- `Database::write`: evict every touched key from the overlay, build one
atomic batch from the transaction and commit it synchronously through
`check_for_corruption`; explicit error on a closed database. -/
def DBState.write (s : DBState) (tr : List DBOp) : DBState × Except String Unit :=
  match s.db with
  | some e =>
      let overlay1 := removeOps s.overlay tr
      let batch := tr.map DBOp.toBatchOp
      match check_for_corruption s.corruption_marker (e.write_opt batch) with
      | (m1, Except.ok e1) =>
          ({ s with db := some e1, overlay := overlay1, corruption_marker := m1 }, Except.ok ())
      | (m1, Except.error msg) =>
          ({ s with overlay := overlay1, corruption_marker := m1 }, Except.error msg)
  | none => (s, Except.error "Database is closed")

/-- `Database::get`: overlay slot first, then the flushing slot, then the
engine; a closed database reads as absent. -/
def DBState.get (s : DBState) (col : Option Nat) (k : Key) : Except String (Option Value) :=
  match s.db with
  | some e =>
      match List.lookup k (s.overlay.getD (to_overlay_column col) []) with
      | some (KeyState.Insert v) => Except.ok (some v)
      | some KeyState.Delete => Except.ok none
      | none =>
          match List.lookup k (s.flushing.getD (to_overlay_column col) []) with
          | some (KeyState.Insert v) => Except.ok (some v)
          | some KeyState.Delete => Except.ok none
          | none => e.get_opt col k
  | none => Except.ok none

/-- The batch-building loop of `write_flushing_with_lock` starting at slot
`c`: `Insert` states become puts, `Delete` states become deletes. -/
def buildBatchAux (c : Nat) : List MLog → List BatchOp
  | [] => []
  | m :: rest =>
      m.map (fun kv =>
        match kv.2 with
        | KeyState.Insert v => BatchOp.put c kv.1 v
        | KeyState.Delete => BatchOp.del c kv.1) ++ buildBatchAux (c + 1) rest

/-- One atomic batch built from all slots of a log vector. -/
def buildBatch (logs : List MLog) : List BatchOp :=
  buildBatchAux 0 logs

/-- `Database::write_flushing_with_lock`: swap `overlay` and `flushing`,
build one batch from the (post-swap) flushing contents, commit it through
`check_for_corruption`; on success clear the flushing logs, on failure leave
them populated. -/
def DBState.write_flushing_with_lock (s : DBState) : DBState × Except String Unit :=
  match s.db with
  | some e =>
      let s1 := { s with overlay := s.flushing, flushing := s.overlay }
      let batch := buildBatch s1.flushing
      match check_for_corruption s1.corruption_marker (e.write_opt batch) with
      | (m1, Except.ok e1) =>
          let s2 := { s1 with db := some e1, corruption_marker := m1 }
          ({ s2 with flushing := s2.flushing.map (fun _ => []) }, Except.ok ())
      | (m1, Except.error msg) =>
          ({ s1 with corruption_marker := m1 }, Except.error msg)
  | none => (s, Except.error "Database is closed")

/-- `Database::flush`: fail fast if the single-flusher guard is already held;
otherwise take the guard, run `write_flushing_with_lock`, and release the
guard on both paths. -/
def DBState.flush (s : DBState) : DBState × Except String Unit :=
  if s.flushing_lock then
    (s, Except.error "Database write failure. Running low on memory perhaps?")
  else
    let s1 := { s with flushing_lock := true }
    let p := s1.write_flushing_with_lock
    ({ p.1 with flushing_lock := false }, p.2)

/-- `Database::num_columns`: number of non-default column families; 0 when
closed.  (The source maps an empty handle list through `None` to 0, which
equals its length.) -/
def DBState.num_columns (s : DBState) : Nat :=
  match s.db with
  | some e => e.cfs.length
  | none => 0

/-- `Database::add_column`: create the next column family and append its
handle; `Ok(())` on a closed database. -/
def DBState.add_column (s : DBState) : DBState × Except String Unit :=
  match s.db with
  | some e =>
      match e.create_cf with
      | Except.ok e1 => ({ s with db := some e1 }, Except.ok ())
      | Except.error msg => (s, Except.error msg)
  | none => (s, Except.ok ())

/-- `Database::drop_column`: pop the highest-ordinal column handle, then ask
the engine to drop that column; the pop happens before the (fallible) engine
call, exactly as in the source. -/
def DBState.drop_column (s : DBState) : DBState × Except String Unit :=
  match s.db with
  | some e =>
      if e.cfs.isEmpty then (s, Except.ok ())
      else
        let e1 := { e with cfs := e.cfs.dropLast }
        match e.drop_cf with
        | Except.ok _ => ({ s with db := some e1 }, Except.ok ())
        | Except.error msg => ({ s with db := some e1 }, Except.error msg)
  | none => (s, Except.ok ())

/-- Strict lexicographic order on byte sequences (the `Ord` of Rust byte
slices: a strict prefix is smaller). -/
def keyLt : Key → Key → Bool
  | [], [] => false
  | [], _ :: _ => true
  | _ :: _, [] => false
  | a :: as, b :: bs => a < b || (a == b && keyLt as bs)

/-- Non-strict version of `keyLt`. -/
def keyLe (a b : Key) : Bool :=
  keyLt a b || a == b

/-- The `Ord` of Rust pairs of byte slices: lexicographic, key first then
value. -/
def pairLe (p q : Key × Value) : Bool :=
  keyLt p.1 q.1 || (p.1 == q.1 && keyLe p.2 q.2)

/-- Insert into a `pairLe`-sorted list, keeping it sorted. -/
def insertSorted (p : Key × Value) : List (Key × Value) → List (Key × Value)
  | [] => [p]
  | q :: rest => if pairLe p q then p :: q :: rest else q :: insertSorted p rest

/-- `Vec::sort` on `(Box<[u8]>, Box<[u8]>)` pairs: sort by the pair order
(keys in a mutation log are unique, so this is a sort by key). -/
def sortPairs : List (Key × Value) → List (Key × Value)
  | [] => []
  | p :: rest => insertSorted p (sortPairs rest)

/-- The `interleaved_ordered::interleave_ordered` merge: emit the elements of
two sorted sequences in global sorted order (the left sequence first on ties);
neither source is deduplicated. -/
def interleave_ordered (a b : List (Key × Value)) : List (Key × Value) :=
  List.merge a b pairLe

/-- The engine's forward scan of one column (`IteratorMode::Start`): its
entries in ascending key order. -/
def Engine.scan (e : Engine) (col : Option Nat) : List (Key × Value) :=
  sortPairs (e.colData col)

/-- `Database::iter`: collect the overlay slot's `Insert` entries (tombstones
filtered out), sort them, and interleave with the engine's forward scan;
`None` on a closed database. -/
def DBState.iter (s : DBState) (col : Option Nat) : Option (List (Key × Value)) :=
  match s.db with
  | some e =>
      let ov := s.overlay.getD (to_overlay_column col) []
      let overlay_data := sortPairs (ov.filterMap (fun kv =>
        match kv.2 with
        | KeyState.Insert v => some (kv.1, v)
        | KeyState.Delete => none))
      some (interleave_ordered overlay_data (e.scan col))
  | none => none

/-- `Database::iter_from_prefix`: engine-side scan positioned at the first
key at or after the given byte sequence (`IteratorMode::From(prefix,
Forward)`); buffered state is not merged in (the overlay side of the
interleave is empty). -/
def DBState.iter_from_prefix (s : DBState) (col : Option Nat) (pre : Key) :
    Option (List (Key × Value)) :=
  match s.db with
  | some e =>
      some (interleave_ordered [] ((e.scan col).filter (fun kv => keyLe pre kv.1)))
  | none => none

/-- Result of running a Rust expression that may panic. -/
inductive PResult (α : Type) where
  | panics
  | ok (a : α)
deriving DecidableEq

/-- `Database::get_by_prefix`: take the first pair of the from-prefix scan and
compare `k[0 .. prefix.len()] == prefix[..]`; the slice expression panics when
the key is shorter than the requested range. -/
def DBState.get_by_prefix (s : DBState) (col : Option Nat) (pre : Key) :
    PResult (Option Value) :=
  match DBState.iter_from_prefix s col pre with
  | none => PResult.ok none
  | some [] => PResult.ok none
  | some ((k, v) :: _) =>
      if pre.length ≤ k.length then
        PResult.ok (if k.take pre.length == pre then some v else none)
      else PResult.panics

/-- Result of the marker-check prelude of `Database::open` (source lines
300–306). -/
structure OpenRepair where
  repair_invoked : Bool
  marker_after : Bool
  result : Except String Unit

/-- The marker-check prelude of `Database::open`: if the `CORRUPTED` marker is
present, invoke `DB::repair` (outcome given by the oracle `repair_result`) and
remove the marker after a successful repair; a repair failure is propagated
with the marker left in place. -/
def openRepairStep (marker : Bool) (repair_result : Except String Unit) : OpenRepair :=
  if marker then
    match repair_result with
    | Except.ok _ => { repair_invoked := true, marker_after := false, result := Except.ok () }
    | Except.error s => { repair_invoked := true, marker_after := true, result := Except.error s }
  else { repair_invoked := false, marker_after := marker, result := Except.ok () }

/-! ### Order lemmas for the merge iterator -/

theorem keyLt_trans : ∀ a b c : Key, keyLt a b = true → keyLt b c = true → keyLt a c = true := by
  intro a
  induction a with
  | nil =>
      intro b c hab hbc
      cases b with
      | nil => simp [keyLt] at hab
      | cons y ys =>
          cases c with
          | nil => simp [keyLt] at hbc
          | cons z zs => simp [keyLt]
  | cons x xs ih =>
      intro b c hab hbc
      cases b with
      | nil => simp [keyLt] at hab
      | cons y ys =>
          cases c with
          | nil => simp [keyLt] at hbc
          | cons z zs =>
              simp only [keyLt, Bool.or_eq_true, Bool.and_eq_true, decide_eq_true_eq,
                beq_iff_eq] at hab hbc ⊢
              rcases hab with h1 | ⟨hxy, h1⟩ <;> rcases hbc with h2 | ⟨hyz, h2⟩
              · exact Or.inl (Nat.lt_trans h1 h2)
              · exact Or.inl (hyz ▸ h1)
              · exact Or.inl (hxy ▸ h2)
              · exact Or.inr ⟨hxy.trans hyz, ih ys zs h1 h2⟩

theorem keyLt_trichotomy : ∀ a b : Key, keyLt a b = true ∨ a = b ∨ keyLt b a = true := by
  intro a
  induction a with
  | nil =>
      intro b
      cases b <;> simp [keyLt]
  | cons x xs ih =>
      intro b
      cases b with
      | nil => simp [keyLt]
      | cons y ys =>
          rcases Nat.lt_trichotomy x y with h | h | h
          · left
            simp [keyLt, h]
          · subst h
            rcases ih ys with h1 | h1 | h1
            · left
              simp [keyLt, h1]
            · right
              left
              rw [h1]
            · right
              right
              simp [keyLt, h1]
          · right
            right
            simp [keyLt, h]

theorem keyLe_trans : ∀ a b c : Key, keyLe a b = true → keyLe b c = true → keyLe a c = true := by
  intro a b c hab hbc
  simp only [keyLe, Bool.or_eq_true, beq_iff_eq] at hab hbc ⊢
  rcases hab with h1 | rfl
  · rcases hbc with h2 | rfl
    · exact Or.inl (keyLt_trans a b c h1 h2)
    · exact Or.inl h1
  · exact hbc

theorem pairLe_trans :
    ∀ p q r : Key × Value, pairLe p q = true → pairLe q r = true → pairLe p r = true := by
  intro p q r hpq hqr
  simp only [pairLe, Bool.or_eq_true, Bool.and_eq_true, decide_eq_true_eq,
    beq_iff_eq] at hpq hqr ⊢
  rcases hpq with h1 | ⟨he1, h1⟩ <;> rcases hqr with h2 | ⟨he2, h2⟩
  · exact Or.inl (keyLt_trans _ _ _ h1 h2)
  · exact Or.inl (he2 ▸ h1)
  · exact Or.inl (he1 ▸ h2)
  · exact Or.inr ⟨he1.trans he2, keyLe_trans _ _ _ h1 h2⟩

theorem pairLe_total : ∀ p q : Key × Value, (pairLe p q || pairLe q p) = true := by
  intro p q
  simp only [pairLe, keyLe, Bool.or_eq_true, Bool.and_eq_true, beq_iff_eq]
  rcases keyLt_trichotomy p.1 q.1 with h | h | h
  · exact Or.inl (Or.inl h)
  · rcases keyLt_trichotomy p.2 q.2 with h2 | h2 | h2
    · exact Or.inl (Or.inr ⟨h, Or.inl h2⟩)
    · exact Or.inl (Or.inr ⟨h, Or.inr h2⟩)
    · exact Or.inr (Or.inr ⟨h.symm, Or.inl h2⟩)
  · exact Or.inr (Or.inl h)

theorem pairLe_of_not_pairLe {p q : Key × Value} (h : ¬ pairLe p q = true) : pairLe q p = true := by
  have := pairLe_total p q
  rcases Bool.or_eq_true_iff.mp this with h1 | h1
  · exact absurd h1 h
  · exact h1

theorem pairLe_imp_keyLe {p q : Key × Value} (h : pairLe p q = true) : keyLe p.1 q.1 = true := by
  simp only [pairLe, Bool.or_eq_true, Bool.and_eq_true, beq_iff_eq] at h
  simp only [keyLe, Bool.or_eq_true, beq_iff_eq]
  rcases h with h | ⟨h, _⟩
  · exact Or.inl h
  · exact Or.inr h

theorem insertSorted_perm (p : Key × Value) :
    ∀ l : List (Key × Value), (insertSorted p l).Perm (p :: l) := by
  intro l
  induction l with
  | nil => simp [insertSorted]
  | cons q rest ih =>
      rw [insertSorted]
      by_cases h : pairLe p q = true
      · simp [h]
      · simp only [h, if_false]
        exact (ih.cons q).trans (List.Perm.swap p q rest)

theorem mem_insertSorted {p b : Key × Value} {l : List (Key × Value)}
    (h : b ∈ insertSorted p l) : b = p ∨ b ∈ l := by
  have := (insertSorted_perm p l).mem_iff.mp h
  simpa using this

theorem insertSorted_pairwise (p : Key × Value) :
    ∀ l : List (Key × Value), l.Pairwise (fun a b => pairLe a b = true) →
      (insertSorted p l).Pairwise (fun a b => pairLe a b = true) := by
  intro l
  induction l with
  | nil =>
      intro _
      simp [insertSorted]
  | cons q rest ih =>
      intro h
      rw [List.pairwise_cons] at h
      rw [insertSorted]
      by_cases hpq : pairLe p q = true
      · simp only [hpq, if_true]
        refine List.Pairwise.cons ?_ (List.Pairwise.cons h.1 h.2)
        intro b hb
        rcases List.mem_cons.mp hb with rfl | hb
        · exact hpq
        · exact pairLe_trans p q b hpq (h.1 b hb)
      · simp only [hpq, if_false]
        refine List.Pairwise.cons ?_ (ih h.2)
        intro b hb
        rcases mem_insertSorted hb with rfl | hb
        · exact pairLe_of_not_pairLe hpq
        · exact h.1 b hb

theorem sortPairs_perm : ∀ l : List (Key × Value), (sortPairs l).Perm l := by
  intro l
  induction l with
  | nil => simp [sortPairs]
  | cons p rest ih =>
      rw [sortPairs]
      exact (insertSorted_perm p (sortPairs rest)).trans (ih.cons p)

theorem sortPairs_pairwise (l : List (Key × Value)) :
    (sortPairs l).Pairwise (fun a b => pairLe a b = true) := by
  induction l with
  | nil => simp [sortPairs]
  | cons p rest ih =>
      rw [sortPairs]
      exact insertSorted_pairwise p (sortPairs rest) ih

theorem mem_sortPairs {b : Key × Value} {l : List (Key × Value)} :
    b ∈ sortPairs l ↔ b ∈ l :=
  (sortPairs_perm l).mem_iff

theorem interleave_ordered_perm (a b : List (Key × Value)) :
    (interleave_ordered a b).Perm (a ++ b) :=
  List.merge_perm_append pairLe

theorem interleave_ordered_pairwise {a b : List (Key × Value)}
    (ha : a.Pairwise (fun p q => pairLe p q = true))
    (hb : b.Pairwise (fun p q => pairLe p q = true)) :
    (interleave_ordered a b).Pairwise (fun p q => pairLe p q = true) :=
  List.sorted_merge (fun p q r => pairLe_trans p q r) pairLe_total a b ha hb

/-! ### Association-list and slot-vector helpers -/

theorem lookup_insertKV_self {α : Type} (m : List (Key × α)) (k : Key) (v : α) :
    List.lookup k (insertKV m k v) = some v := by
  simp [insertKV, List.lookup]

theorem lookup_filter_none {α : Type} {m : List (Key × α)} {k : Key}
    (f : Key × α → Bool) (h : List.lookup k m = none) :
    List.lookup k (m.filter f) = none := by
  induction m with
  | nil => simp
  | cons e rest ih =>
      rw [List.lookup] at h
      by_cases hk : (k == e.1) = true
      · rw [hk] at h
        simp at h
      · have hk' : (k == e.1) = false := Bool.not_eq_true _ ▸ hk
        rw [hk'] at h
        rw [List.filter]
        cases f e with
        | false => exact ih h
        | true =>
            rw [List.lookup, hk']
            exact ih h

theorem lookup_eraseKV_self {α : Type} (m : List (Key × α)) (k : Key) :
    List.lookup k (eraseKV m k) = none := by
  induction m with
  | nil => simp [eraseKV]
  | cons e rest ih =>
      rw [eraseKV, List.filter]
      by_cases he : e.1 = k
      · simp only [he, bne_self_eq_false]
        exact ih
      · have : (e.1 != k) = true := bne_iff_ne.mpr he
        rw [this]
        rw [List.lookup]
        have : (k == e.1) = false := beq_eq_false_iff_ne.mpr (fun hk => he hk.symm)
        rw [this]
        exact ih

theorem lookup_eraseKV_none {α : Type} {m : List (Key × α)} {k : Key} (k' : Key)
    (h : List.lookup k m = none) : List.lookup k (eraseKV m k') = none :=
  lookup_filter_none _ h

theorem set_of_length_le {α : Type} : ∀ (l : List α) (c : Nat), l.length ≤ c →
    ∀ x : α, l.set c x = l := by
  intro l
  induction l with
  | nil => intro c _ x; rfl
  | cons a rest ih =>
      intro c hc x
      cases c with
      | zero => simp at hc
      | succ c' =>
          rw [List.set]
          rw [ih c' (Nat.le_of_succ_le_succ hc) x]

theorem getD_set_self {α : Type} : ∀ (l : List α) (c : Nat) (x d : α), c < l.length →
    (l.set c x).getD c d = x := by
  intro l
  induction l with
  | nil => intro c x d hc; simp at hc
  | cons a rest ih =>
      intro c x d hc
      cases c with
      | zero => rfl
      | succ c' => exact ih c' x d (Nat.lt_of_succ_lt_succ hc)

theorem getD_set_ne {α : Type} : ∀ (l : List α) (c c' : Nat) (x d : α), c ≠ c' →
    (l.set c x).getD c' d = l.getD c' d := by
  intro l
  induction l with
  | nil => intro c c' x d _; rfl
  | cons a rest ih =>
      intro c c' x d hne
      cases c with
      | zero =>
          cases c' with
          | zero => exact absurd rfl hne
          | succ => rfl
      | succ cc =>
          cases c' with
          | zero => rfl
          | succ cc' => exact ih cc cc' x d (fun h => hne (by rw [h]))

theorem getD_all_empty : ∀ (logs : List MLog), (∀ m ∈ logs, m = []) →
    ∀ c : Nat, logs.getD c [] = [] := by
  intro logs
  induction logs with
  | nil => intro _ c; cases c <;> rfl
  | cons m rest ih =>
      intro h c
      cases c with
      | zero => exact h m (List.mem_cons_self m rest)
      | succ c' => exact ih (fun x hx => h x (List.mem_cons_of_mem m hx)) c'

theorem getD_map_const : ∀ (logs : List MLog) (c : Nat),
    (logs.map (fun _ => ([] : MLog))).getD c [] = [] := by
  intro logs
  induction logs with
  | nil => intro c; cases c <;> rfl
  | cons m rest ih =>
      intro c
      cases c with
      | zero => rfl
      | succ c' => exact ih c'

theorem lookup_updateSlot_erase_none {logs : List MLog} {c : Nat} {k : Key}
    (c' : Nat) (k' : Key) (h : List.lookup k (logs.getD c []) = none) :
    List.lookup k ((updateSlot logs c' (fun m => eraseKV m k')).getD c []) = none := by
  by_cases hcc : c' = c
  · subst hcc
    by_cases hlen : c' < logs.length
    · rw [updateSlot, getD_set_self _ _ _ _ hlen]
      exact lookup_eraseKV_none k' h
    · rw [updateSlot, set_of_length_le _ _ (Nat.le_of_not_lt hlen)]
      exact h
  · rw [updateSlot, getD_set_ne _ _ _ _ _ hcc]
    exact h

theorem removeOps_preserves_none :
    ∀ (ops : List DBOp) (logs : List MLog) (c : Nat) (k : Key),
      List.lookup k (logs.getD c []) = none →
      List.lookup k ((removeOps logs ops).getD c []) = none := by
  intro ops
  induction ops with
  | nil => intro logs c k h; exact h
  | cons op rest ih =>
      intro logs c k h
      rw [removeOps]
      exact ih _ c k (lookup_updateSlot_erase_none _ _ h)

theorem getD_of_length_le {α : Type} : ∀ (l : List α) (c : Nat) (d : α), l.length ≤ c →
    l.getD c d = d := by
  intro l
  induction l with
  | nil => intro c d _; cases c <;> rfl
  | cons a rest ih =>
      intro c d hc
      cases c with
      | zero => simp at hc
      | succ c' => exact ih c' d (Nat.le_of_succ_le_succ hc)

theorem removeOps_length : ∀ (ops : List DBOp) (logs : List MLog),
    (removeOps logs ops).length = logs.length := by
  intro ops
  induction ops with
  | nil => intro logs; rfl
  | cons op rest ih =>
      intro logs
      rw [removeOps, ih, updateSlot, List.length_set]

theorem removeOps_lookup_none :
    ∀ (ops : List DBOp) (logs : List MLog) (op : DBOp), op ∈ ops →
      List.lookup op.key ((removeOps logs ops).getD (to_overlay_column op.col) []) = none := by
  intro ops
  induction ops with
  | nil => intro logs op h; simp at h
  | cons op0 rest ih =>
      intro logs op h
      rcases List.mem_cons.mp h with rfl | h
      · rw [removeOps]
        by_cases hlen : to_overlay_column op.col < logs.length
        · apply removeOps_preserves_none
          rw [updateSlot, getD_set_self _ _ _ _ hlen]
          exact lookup_eraseKV_self _ _
        · have hlen2 : logs.length ≤ to_overlay_column op.col := Nat.le_of_not_lt hlen
          have hfin : (removeOps (updateSlot logs (to_overlay_column op.col)
              (fun m => eraseKV m op.key)) rest).length ≤ to_overlay_column op.col := by
            rw [removeOps_length, updateSlot, List.length_set]
            exact hlen2
          rw [getD_of_length_le _ _ _ hfin]
          rfl
      · rw [removeOps]
        exact ih _ op h

theorem buildBatchAux_of_empty : ∀ (logs : List MLog), (∀ m ∈ logs, m = []) →
    ∀ c : Nat, buildBatchAux c logs = [] := by
  intro logs
  induction logs with
  | nil => intro _ c; rfl
  | cons m rest ih =>
      intro h c
      rw [buildBatchAux]
      rw [h m (List.mem_cons_self m rest)]
      rw [ih (fun x hx => h x (List.mem_cons_of_mem m hx)) (c + 1)]
      rfl

theorem mem_buildBatchAux_put :
    ∀ (logs : List MLog) (c0 c : Nat) (m : MLog) (k : Key) (v : Value),
      logs[c]? = some m → (k, KeyState.Insert v) ∈ m →
      BatchOp.put (c0 + c) k v ∈ buildBatchAux c0 logs := by
  intro logs
  induction logs with
  | nil => intro c0 c m k v h _; simp at h
  | cons m0 rest ih =>
      intro c0 c m k v h hm
      rw [buildBatchAux]
      cases c with
      | zero =>
          simp only [List.getElem?_cons_zero, Option.some_inj] at h
          subst h
          apply List.mem_append_left
          rw [Nat.add_zero]
          exact List.mem_map.mpr ⟨(k, KeyState.Insert v), hm, rfl⟩
      | succ c' =>
          simp only [List.getElem?_cons_succ] at h
          apply List.mem_append_right
          have := ih (c0 + 1) c' m k v h hm
          have harith : c0 + 1 + c' = c0 + (c' + 1) := by omega
          rwa [harith] at this

theorem mem_buildBatchAux_del :
    ∀ (logs : List MLog) (c0 c : Nat) (m : MLog) (k : Key),
      logs[c]? = some m → (k, KeyState.Delete) ∈ m →
      BatchOp.del (c0 + c) k ∈ buildBatchAux c0 logs := by
  intro logs
  induction logs with
  | nil => intro c0 c m k h _; simp at h
  | cons m0 rest ih =>
      intro c0 c m k h hm
      rw [buildBatchAux]
      cases c with
      | zero =>
          simp only [List.getElem?_cons_zero, Option.some_inj] at h
          subst h
          apply List.mem_append_left
          rw [Nat.add_zero]
          exact List.mem_map.mpr ⟨(k, KeyState.Delete), hm, rfl⟩
      | succ c' =>
          simp only [List.getElem?_cons_succ] at h
          apply List.mem_append_right
          have := ih (c0 + 1) c' m k h hm
          have harith : c0 + 1 + c' = c0 + (c' + 1) := by omega
          rwa [harith] at this

theorem applyOp_failure (e : Engine) (op : BatchOp) : (e.applyOp op).failure = e.failure := by
  cases op with
  | put slot k v => cases slot <;> rfl
  | del slot k => cases slot <;> rfl

theorem applyBatch_failure (e : Engine) : ∀ b : List BatchOp,
    (e.applyBatch b).failure = e.failure := by
  suffices h : ∀ (b : List BatchOp) (e0 : Engine), (e0.applyBatch b).failure = e0.failure by
    intro b
    exact h b e
  intro b
  induction b with
  | nil => intro e0; rfl
  | cons op rest ih =>
      intro e0
      exact (ih (e0.applyOp op)).trans (applyOp_failure e0 op)

theorem applyBatch_nil (e : Engine) : e.applyBatch [] = e := rfl

theorem get_opt_applyOp_put (e : Engine) (col : Option Nat) (k : Key) (v : Value)
    (hfail : e.failure = none) (hbound : ∀ c, col = some c → c < e.cfs.length) :
    (e.applyOp (BatchOp.put (to_overlay_column col) k v)).get_opt col k =
      Except.ok (some v) := by
  cases col with
  | none =>
      rw [Engine.get_opt]
      have hf : (e.applyOp (BatchOp.put (to_overlay_column none) k v)).failure = none := by
        rw [applyOp_failure]; exact hfail
      rw [hf]
      rw [to_overlay_column, Engine.applyOp, Engine.colData]
      rw [lookup_insertKV_self]
  | some c =>
      rw [Engine.get_opt]
      have hf : (e.applyOp (BatchOp.put (to_overlay_column (some c)) k v)).failure = none := by
        rw [applyOp_failure]; exact hfail
      rw [hf]
      rw [to_overlay_column, Engine.applyOp, Engine.colData]
      rw [getD_set_self _ _ _ _ (hbound c rfl)]
      rw [lookup_insertKV_self]

/-! ### Example states -/

/-- A small healthy engine: two keys in the default column, one column family
with one key. -/
def exEngine : Engine :=
  { default_col := [([1], [3]), ([2], [4])], cfs := [[([5], [6])]], failure := none }

/-- An open database over `exEngine` with a buffered insert for key `[1]` and a
buffered tombstone for key `[7]` in the default slot. -/
def exOpen : DBState :=
  { db := some exEngine,
    overlay := [[([1], KeyState.Insert [5]), ([7], KeyState.Delete)], []],
    flushing := [[], []],
    flushing_lock := false,
    corruption_marker := false }

/-- A closed database (engine handle cleared). -/
def exClosed : DBState :=
  { db := none, overlay := [], flushing := [], flushing_lock := false,
    corruption_marker := false }

/-- An open database whose single-flusher guard is currently held. -/
def exLocked : DBState :=
  { exOpen with flushing_lock := true }

/-- An engine whose next fallible call reports a corruption error. -/
def exCorruptEngine : Engine :=
  { default_col := [], cfs := [], failure := some "Corruption: bad block" }

/-- An open database over the corrupted engine. -/
def exCorrupt : DBState :=
  { db := some exCorruptEngine, overlay := [[]], flushing := [[]],
    flushing_lock := false, corruption_marker := false }

/-! ### Claims -/

/-- C1: for every open database, column and key, `get` first consults the
overlay slot (an `Insert` entry yields its value, a `Delete` entry yields
absent); if the key is absent from the overlay the same check is repeated
against the flushing slot; only if it is absent from both is the engine's
partition queried directly. -/
theorem get_reads_overlay_then_flushing_then_engine
    (s : DBState) (e : Engine) (col : Option Nat) (k : Key)
    (hopen : s.db = some e) :
    (∀ v, List.lookup k (s.overlay.getD (to_overlay_column col) []) =
        some (KeyState.Insert v) → s.get col k = Except.ok (some v)) ∧
    (List.lookup k (s.overlay.getD (to_overlay_column col) []) = some KeyState.Delete →
        s.get col k = Except.ok none) ∧
    (List.lookup k (s.overlay.getD (to_overlay_column col) []) = none →
      (∀ v, List.lookup k (s.flushing.getD (to_overlay_column col) []) =
          some (KeyState.Insert v) → s.get col k = Except.ok (some v)) ∧
      (List.lookup k (s.flushing.getD (to_overlay_column col) []) = some KeyState.Delete →
          s.get col k = Except.ok none) ∧
      (List.lookup k (s.flushing.getD (to_overlay_column col) []) = none →
          s.get col k = e.get_opt col k)) := by
  refine ⟨?_, ?_, ?_⟩
  · intro v hv
    rw [DBState.get, hopen, hv]
  · intro hv
    rw [DBState.get, hopen, hv]
  · intro hov
    refine ⟨?_, ?_, ?_⟩
    · intro v hv
      rw [DBState.get, hopen, hov, hv]
    · intro hv
      rw [DBState.get, hopen, hov, hv]
    · intro hv
      rw [DBState.get, hopen, hov, hv]

/-- Witness for C1 on `exOpen`: a buffered insert, a buffered tombstone, and a
key served by the engine. -/
theorem get_reads_overlay_then_flushing_then_engine_witness :
    DBState.get exOpen none [1] = Except.ok (some [5]) ∧
    DBState.get exOpen none [7] = Except.ok none ∧
    DBState.get exOpen none [2] = Except.ok (some [4]) := by
  refine ⟨?_, ?_, ?_⟩
  · exact (get_reads_overlay_then_flushing_then_engine exOpen exEngine none [1] rfl).1 [5] rfl
  · exact (get_reads_overlay_then_flushing_then_engine exOpen exEngine none [7] rfl).2.1 rfl
  · exact (((get_reads_overlay_then_flushing_then_engine exOpen exEngine none [2]
      rfl).2.2 rfl).2.2 rfl).trans rfl

/-- C7: on a database whose engine handle has been cleared, `get` returns a
quiet absent result while `write` returns an explicit closed-database
error. -/
theorem closed_get_absent_write_errors
    (s : DBState) (col : Option Nat) (k : Key) (tr : List DBOp)
    (hclosed : s.db = none) :
    s.get col k = Except.ok none ∧
    s.write tr = (s, Except.error "Database is closed") := by
  constructor
  · rw [DBState.get, hclosed]
  · rw [DBState.write, hclosed]

/-- Witness for C7 on `exClosed`. -/
theorem closed_get_absent_write_errors_witness :
    DBState.get exClosed none [1] = Except.ok none ∧
    DBState.write exClosed [DBOp.Insert none [1] [2]] =
      (exClosed, Except.error "Database is closed") :=
  closed_get_absent_write_errors exClosed none [1] [DBOp.Insert none [1] [2]] rfl

/-- C4: `flush` invoked while the single-flusher guard is held fails
immediately with the resource-exhaustion error and changes nothing; when the
guard is free, a completed flush always leaves the guard released, on the
success path and on the failure path alike. -/
theorem flush_fails_fast_and_releases_guard (s : DBState) :
    (s.flushing_lock = true →
       s.flush = (s, Except.error "Database write failure. Running low on memory perhaps?")) ∧
    (s.flushing_lock = false → (s.flush).1.flushing_lock = false) := by
  constructor
  · intro h
    rw [DBState.flush]
    simp [h]
  · intro h
    rw [DBState.flush]
    simp [h]

/-- Witness for C4: a held guard fails fast on `exLocked`; a free guard is
released after flushing `exOpen` (success path) and `exCorrupt` (engine
failure path). -/
theorem flush_fails_fast_and_releases_guard_witness :
    exLocked.flush =
      (exLocked, Except.error "Database write failure. Running low on memory perhaps?") ∧
    (exOpen.flush).1.flushing_lock = false ∧
    (exCorrupt.flush).1.flushing_lock = false := by
  refine ⟨?_, ?_, ?_⟩
  · exact (flush_fails_fast_and_releases_guard exLocked).1 rfl
  · exact (flush_fails_fast_and_releases_guard exOpen).2 rfl
  · exact (flush_fails_fast_and_releases_guard exCorrupt).2 rfl

/-- C3: with the guard free and the flushing logs in their invariant (empty)
state, `flush` swaps overlay and flushing (so subsequent buffered writes go
into a fresh empty overlay), builds one atomic batch from all flushing
contents (`Insert` states become puts, `Delete` states become deletes) and
submits it to the engine; on success the flushing logs are cleared, on engine
failure they are left populated and the error is propagated. -/
theorem flush_swaps_batches_and_clears (s : DBState) (e : Engine)
    (hopen : s.db = some e) (hlock : s.flushing_lock = false)
    (hfl_empty : ∀ m ∈ s.flushing, m = []) :
    ((s.flush).1.overlay = s.flushing ∧ ∀ m ∈ (s.flush).1.overlay, m = []) ∧
    (∀ c m, s.overlay[c]? = some m →
       (∀ k v, (k, KeyState.Insert v) ∈ m → BatchOp.put c k v ∈ buildBatch s.overlay) ∧
       (∀ k, (k, KeyState.Delete) ∈ m → BatchOp.del c k ∈ buildBatch s.overlay)) ∧
    (e.failure = none →
       (s.flush).2 = Except.ok () ∧
       (s.flush).1.db = some (e.applyBatch (buildBatch s.overlay)) ∧
       (s.flush).1.flushing = s.overlay.map (fun _ => []) ∧
       (s.flush).1.flushing_lock = false) ∧
    (∀ msg, e.failure = some msg →
       (s.flush).2 = Except.error msg ∧
       (s.flush).1.flushing = s.overlay ∧
       (s.flush).1.db = some e ∧
       (s.flush).1.flushing_lock = false) := by
  have hbatchmem : ∀ c m, s.overlay[c]? = some m →
      (∀ k v, (k, KeyState.Insert v) ∈ m → BatchOp.put c k v ∈ buildBatch s.overlay) ∧
      (∀ k, (k, KeyState.Delete) ∈ m → BatchOp.del c k ∈ buildBatch s.overlay) := by
    intro c m hc
    constructor
    · intro k v hm
      have := mem_buildBatchAux_put s.overlay 0 c m k v hc hm
      rwa [Nat.zero_add] at this
    · intro k hm
      have := mem_buildBatchAux_del s.overlay 0 c m k hc hm
      rwa [Nat.zero_add] at this
  cases hfail : e.failure with
  | none =>
      have hflush : s.flush =
          ({ s with
             overlay := s.flushing,
             flushing := s.overlay.map (fun _ => []),
             db := some (e.applyBatch (buildBatch s.overlay)),
             flushing_lock := false }, Except.ok ()) := by
        rw [DBState.flush]
        simp only [hlock, Bool.false_eq_true, if_false]
        rw [DBState.write_flushing_with_lock]
        simp only [hopen, Engine.write_opt, hfail, check_for_corruption]
      refine ⟨?_, hbatchmem, ?_, ?_⟩
      · rw [hflush]
        exact ⟨rfl, hfl_empty⟩
      · intro _
        rw [hflush]
        exact ⟨rfl, rfl, rfl, rfl⟩
      · intro msg hmsg
        cases hmsg
  | some msg0 =>
      have hflush : s.flush =
          ({ s with
             overlay := s.flushing,
             flushing := s.overlay,
             corruption_marker := s.corruption_marker || isCorruptionMsg msg0,
             flushing_lock := false }, Except.error msg0) := by
        rw [DBState.flush]
        simp only [hlock, Bool.false_eq_true, if_false]
        rw [DBState.write_flushing_with_lock]
        simp only [hopen, Engine.write_opt, hfail, check_for_corruption]
      refine ⟨?_, hbatchmem, ?_, ?_⟩
      · rw [hflush]
        exact ⟨rfl, hfl_empty⟩
      · intro hnone
        cases hnone
      · intro msg hmsg
        cases hmsg
        rw [hflush]
        exact ⟨rfl, rfl, hopen, rfl⟩

/-- Witness for C3 on `exOpen`: the flush succeeds, the buffered insert and
tombstone appear in the batch as a put and a delete, and the overlay was
swapped with the (empty) flushing logs. -/
theorem flush_swaps_batches_and_clears_witness :
    (exOpen.flush).2 = Except.ok () ∧
    BatchOp.put 0 [1] [5] ∈ buildBatch exOpen.overlay ∧
    BatchOp.del 0 [7] ∈ buildBatch exOpen.overlay ∧
    (exOpen.flush).1.overlay = exOpen.flushing := by
  have h := flush_swaps_batches_and_clears exOpen exEngine rfl rfl (by decide)
  refine ⟨(h.2.2.1 rfl).1, ?_, ?_, h.1.1⟩
  · exact (h.2.1 0 [([1], KeyState.Insert [5]), ([7], KeyState.Delete)] rfl).1 [1] [5]
      (by decide)
  · exact (h.2.1 0 [([1], KeyState.Insert [5]), ([7], KeyState.Delete)] rfl).2 [7]
      (by decide)

/-- C8: flushing an open database (healthy engine, guard free) whose overlay
logs are all empty succeeds and leaves every value observable through `get`
unchanged. -/
theorem flush_empty_overlay_is_noop (s : DBState) (e : Engine)
    (hopen : s.db = some e) (hfail : e.failure = none)
    (hlock : s.flushing_lock = false) (hov_empty : ∀ m ∈ s.overlay, m = []) :
    (s.flush).2 = Except.ok () ∧
    ∀ (col : Option Nat) (k : Key), (s.flush).1.get col k = s.get col k := by
  have hbatch : buildBatch s.overlay = [] := buildBatchAux_of_empty s.overlay hov_empty 0
  have hflush : s.flush =
      ({ s with
         overlay := s.flushing,
         flushing := s.overlay.map (fun _ => []),
         db := some e,
         flushing_lock := false }, Except.ok ()) := by
    rw [DBState.flush]
    simp only [hlock, Bool.false_eq_true, if_false]
    rw [DBState.write_flushing_with_lock]
    simp only [hopen, Engine.write_opt, hfail, check_for_corruption, hbatch,
      Engine.applyBatch, List.foldl_nil]
  refine ⟨by rw [hflush], ?_⟩
  intro col k
  rw [hflush]
  have hov_slot : s.overlay.getD (to_overlay_column col) [] = [] :=
    getD_all_empty _ hov_empty _
  rw [DBState.get, DBState.get, hopen, hov_slot]
  simp only [List.lookup, getD_map_const]

/-- Witness for C8: an open database with empty overlay logs. -/
theorem flush_empty_overlay_is_noop_witness :
    (({ exOpen with overlay := [[], []] } : DBState).flush).2 = Except.ok () ∧
    (({ exOpen with overlay := [[], []] } : DBState).flush).1.get none [1] =
      ({ exOpen with overlay := [[], []] } : DBState).get none [1] := by
  have h := flush_empty_overlay_is_noop { exOpen with overlay := [[], []] } exEngine
    rfl rfl rfl (by decide)
  exact ⟨h.1, h.2 none [1]⟩

theorem get_engine_of_lookups_none (s : DBState) (e : Engine) (col : Option Nat) (k : Key)
    (hopen : s.db = some e)
    (hov : List.lookup k (s.overlay.getD (to_overlay_column col) []) = none)
    (hfl : List.lookup k (s.flushing.getD (to_overlay_column col) []) = none) :
    s.get col k = e.get_opt col k := by
  rw [DBState.get, hopen, hov, hfl]

theorem write_overlay_eq (s : DBState) (e : Engine) (tr : List DBOp)
    (hopen : s.db = some e) :
    (s.write tr).1.overlay = removeOps s.overlay tr := by
  rw [DBState.write, hopen]
  cases hr : e.write_opt (tr.map DBOp.toBatchOp) with
  | ok e1 => simp [check_for_corruption, hr]
  | error msg => simp [check_for_corruption, hr]

theorem write_eq_of_open (s : DBState) (e : Engine) (tr : List DBOp)
    (hopen : s.db = some e) (hfail : e.failure = none) :
    s.write tr =
      ({ s with
         db := some (e.applyBatch (tr.map DBOp.toBatchOp)),
         overlay := removeOps s.overlay tr }, Except.ok ()) := by
  rw [DBState.write, hopen]
  simp only [Engine.write_opt, hfail, check_for_corruption]

/-- C5: for every open database, `write(tr)` removes any existing overlay
entry for each key touched by `tr`; consequently buffering a put for a key
and then `write`-ing a different value for the same key makes `get` return
the `write`-path value, not the stale buffered one (given the invariant that
the flushing slot holds no entry for that key). -/
theorem write_evicts_overlay_and_overrides_buffered (s : DBState) (e : Engine)
    (hopen : s.db = some e) :
    (∀ (tr : List DBOp), ∀ op ∈ tr,
       List.lookup op.key (((s.write tr).1.overlay).getD (to_overlay_column op.col) []) =
         none) ∧
    (∀ (col : Option Nat) (k : Key) (v1 v2 : Value),
       e.failure = none →
       (∀ c, col = some c → c < e.cfs.length) →
       List.lookup k (s.flushing.getD (to_overlay_column col) []) = none →
       ((s.write_buffered [DBOp.Insert col k v1]).write [DBOp.Insert col k v2]).2 =
         Except.ok () ∧
       (((s.write_buffered [DBOp.Insert col k v1]).write [DBOp.Insert col k v2]).1).get
         col k = Except.ok (some v2)) := by
  constructor
  · intro tr op hop
    rw [write_overlay_eq s e tr hopen]
    exact removeOps_lookup_none tr s.overlay op hop
  · intro col k v1 v2 hfail hbound hfl
    have hs1db : (s.write_buffered [DBOp.Insert col k v1]).db = some e := hopen
    have hw := write_eq_of_open (s.write_buffered [DBOp.Insert col k v1]) e
      [DBOp.Insert col k v2] hs1db hfail
    rw [hw]
    constructor
    · rfl
    · have hov : List.lookup k
          ((removeOps (s.write_buffered [DBOp.Insert col k v1]).overlay
            [DBOp.Insert col k v2]).getD (to_overlay_column col) []) = none :=
        removeOps_lookup_none [DBOp.Insert col k v2] _ (DBOp.Insert col k v2)
          (List.mem_singleton.mpr rfl)
      have hget := get_engine_of_lookups_none
        ({ s.write_buffered [DBOp.Insert col k v1] with
           db := some (e.applyBatch ([DBOp.Insert col k v2].map DBOp.toBatchOp)),
           overlay := removeOps (s.write_buffered [DBOp.Insert col k v1]).overlay
             [DBOp.Insert col k v2] } : DBState)
        (e.applyBatch ([DBOp.Insert col k v2].map DBOp.toBatchOp)) col k rfl hov hfl
      exact hget.trans (get_opt_applyOp_put e col k v2 hfail hbound)

/-- Witness for C5 on `exOpen`: writing evicts the buffered entry for key
`[1]`, and a buffered put for `[9]` followed by a direct write of a different
value reads back the written value. -/
theorem write_evicts_overlay_and_overrides_buffered_witness :
    List.lookup [1]
      (((exOpen.write [DBOp.Insert none [1] [9]]).1.overlay).getD 0 []) = none ∧
    ((exOpen.write_buffered [DBOp.Insert none [9] [1]]).write [DBOp.Insert none [9] [2]]).2 =
      Except.ok () ∧
    (((exOpen.write_buffered [DBOp.Insert none [9] [1]]).write
        [DBOp.Insert none [9] [2]]).1).get none [9] = Except.ok (some [2]) := by
  have h := write_evicts_overlay_and_overrides_buffered exOpen exEngine rfl
  have h2 := h.2 none [9] [1] [2] rfl (fun c hc => by cases hc) rfl
  exact ⟨h.1 [DBOp.Insert none [1] [9]] (DBOp.Insert none [1] [9])
    (List.mem_singleton.mpr rfl), h2.1, h2.2⟩

/-- C6: when a persistence operation (`write` or `flush`) receives an engine
error whose message begins with the corruption signature, the corruption
marker is set in the returned state and the error is surfaced to the caller;
and the marker-check prelude of `open` invokes the engine's repair whenever
the marker is present, deleting the marker when the repair succeeds. -/
theorem corruption_marker_protocol (s : DBState) (e : Engine) (msg : String)
    (tr : List DBOp) (hopen : s.db = some e) (hfail : e.failure = some msg)
    (hcorr : isCorruptionMsg msg = true) (hlock : s.flushing_lock = false) :
    ((s.write tr).1.corruption_marker = true ∧ (s.write tr).2 = Except.error msg) ∧
    ((s.flush).1.corruption_marker = true ∧ (s.flush).2 = Except.error msg) ∧
    (∀ r : Except String Unit, (openRepairStep true r).repair_invoked = true) ∧
    (openRepairStep true (Except.ok ())).marker_after = false := by
  have hw : s.write tr =
      ({ s with
         overlay := removeOps s.overlay tr,
         corruption_marker := s.corruption_marker || isCorruptionMsg msg },
       Except.error msg) := by
    rw [DBState.write, hopen]
    simp only [Engine.write_opt, hfail, check_for_corruption]
  have hf : s.flush =
      ({ s with
         overlay := s.flushing,
         flushing := s.overlay,
         corruption_marker := s.corruption_marker || isCorruptionMsg msg,
         flushing_lock := false },
       Except.error msg) := by
    rw [DBState.flush]
    simp only [hlock, Bool.false_eq_true, if_false]
    rw [DBState.write_flushing_with_lock]
    simp only [hopen, Engine.write_opt, hfail, check_for_corruption]
  refine ⟨⟨?_, by rw [hw]⟩, ⟨?_, by rw [hf]⟩, ?_, rfl⟩
  · rw [hw]
    simp [hcorr]
  · rw [hf]
    simp [hcorr]
  · intro r
    cases r <;> rfl

/-- Witness for C6 on `exCorrupt` (engine failing with a corruption
message). -/
theorem corruption_marker_protocol_witness :
    ((exCorrupt.write []).1.corruption_marker = true ∧
     (exCorrupt.write []).2 = Except.error "Corruption: bad block") ∧
    ((exCorrupt.flush).1.corruption_marker = true ∧
     (exCorrupt.flush).2 = Except.error "Corruption: bad block") ∧
    (openRepairStep true (Except.ok ())).repair_invoked = true ∧
    (openRepairStep true (Except.ok ())).marker_after = false := by
  have h := corruption_marker_protocol exCorrupt exCorruptEngine "Corruption: bad block"
    [] rfl rfl (by decide) rfl
  exact ⟨h.1, h.2.1, h.2.2.1 (Except.ok ()), h.2.2.2⟩

/-- C9: on an open database with a healthy engine, a successful `add_column`
increments `num_columns` by exactly one, and a successful `drop_column` on a
database with at least one column removes the highest-ordinal partition and
decrements `num_columns` by one. -/
theorem column_lifecycle (s : DBState) (e : Engine)
    (hopen : s.db = some e) (hfail : e.failure = none) :
    ((s.add_column).2 = Except.ok () ∧
     (s.add_column).1.num_columns = s.num_columns + 1) ∧
    (e.cfs ≠ [] →
     (s.drop_column).2 = Except.ok () ∧
     (s.drop_column).1.num_columns = s.num_columns - 1 ∧
     ∃ e1, (s.drop_column).1.db = some e1 ∧ e1.cfs = e.cfs.dropLast) := by
  constructor
  · have ha : s.add_column =
        ({ s with db := some { e with cfs := e.cfs ++ [[]] } }, Except.ok ()) := by
      rw [DBState.add_column, hopen]
      simp only [Engine.create_cf, hfail]
    refine ⟨by rw [ha], ?_⟩
    rw [ha]
    simp [DBState.num_columns, hopen]
  · intro hne
    have hemp : e.cfs.isEmpty = false := by
      cases hc : e.cfs.isEmpty
      · rfl
      · exact absurd (List.isEmpty_iff.mp hc) hne
    have hd : s.drop_column =
        ({ s with db := some { e with cfs := e.cfs.dropLast } }, Except.ok ()) := by
      rw [DBState.drop_column, hopen]
      simp only [hemp, Bool.false_eq_true, if_false, Engine.drop_cf, hfail]
    refine ⟨by rw [hd], ?_, ?_⟩
    · rw [hd]
      simp [DBState.num_columns, hopen, List.length_dropLast]
    · exact ⟨{ e with cfs := e.cfs.dropLast }, by rw [hd], rfl⟩

/-- A freshly opened database with zero columns. -/
def c9zero : DBState :=
  { db := some { default_col := [], cfs := [], failure := none },
    overlay := [[]], flushing := [[]], flushing_lock := false,
    corruption_marker := false }

def c9s1 : DBState := (c9zero.add_column).1

def c9s2 : DBState := (c9s1.add_column).1

def c9s3 : DBState := (c9s2.add_column).1

def c9s4 : DBState := (c9s3.add_column).1

def c9s5 : DBState := (c9s4.add_column).1

/-- Witness for C9: adding five columns to a zero-column database yields
`num_columns` 1..5 incrementally, and dropping one brings it back to 4. -/
theorem column_lifecycle_witness :
    c9s1.num_columns = 1 ∧ c9s2.num_columns = 2 ∧ c9s3.num_columns = 3 ∧
    c9s4.num_columns = 4 ∧ c9s5.num_columns = 5 ∧
    (c9s5.drop_column).2 = Except.ok () ∧ (c9s5.drop_column).1.num_columns = 4 := by
  have h1 := (column_lifecycle c9zero
    { default_col := [], cfs := [], failure := none } rfl rfl).1.2
  have h2 := (column_lifecycle c9s1
    { default_col := [], cfs := [[]], failure := none } rfl rfl).1.2
  have h3 := (column_lifecycle c9s2
    { default_col := [], cfs := [[], []], failure := none } rfl rfl).1.2
  have h4 := (column_lifecycle c9s3
    { default_col := [], cfs := [[], [], []], failure := none } rfl rfl).1.2
  have h5 := (column_lifecycle c9s4
    { default_col := [], cfs := [[], [], [], []], failure := none } rfl rfl).1.2
  have hdrop := (column_lifecycle c9s5
    { default_col := [], cfs := [[], [], [], [], []], failure := none } rfl rfl).2
    (by decide)
  exact ⟨h1.trans rfl, h2.trans rfl, h3.trans rfl, h4.trans rfl, h5.trans rfl,
    hdrop.1, hdrop.2.1.trans rfl⟩

/-- An open database where key `[1]` has a buffered overlay insert (value
`[5]`) and a different persisted engine value (`[3]`). -/
def exOverlayShadow : DBState :=
  { db := some { default_col := [([1], [3])], cfs := [], failure := none },
    overlay := [[([1], KeyState.Insert [5])]],
    flushing := [[]],
    flushing_lock := false,
    corruption_marker := false }

/-- Counterexample to C2 as stated: with key `[1]` both in the overlay (as
`Insert [5]`) and in the engine (value `[3]`), `iter` yields BOTH pairs — the
engine entry is not superseded by the overlay entry, and (because the merge
compares whole (key, value) pairs) the engine pair even precedes the overlay
pair.  The key also appears twice, so the key sequence is not strictly
ascending. -/
theorem iter_overlay_precedence_counterexample :
    exOverlayShadow.iter none = some [([1], [3]), ([1], [5])] := by
  rw [DBState.iter]
  simp only [exOverlayShadow]
  simp [Engine.scan, Engine.colData, sortPairs, insertSorted, interleave_ordered,
    List.merge, pairLe, keyLe, keyLt]

/-- C2 (amended): for every open database and column, `iter(col)` yields the
two-way sorted interleave of the overlay slot's `Insert` entries (sorted)
with the engine's forward scan: keys appear in non-decreasing order, every
overlay `Insert` entry and every engine entry appears, and every yielded pair
stems from one of the two sources (in particular overlay `Delete` entries
contribute nothing from the overlay side).  A key present in both sources is
yielded twice — the overlay entry does not supersede the engine entry. -/
theorem iter_merges_overlay_inserts_with_engine_scan (s : DBState) (e : Engine)
    (col : Option Nat) (hopen : s.db = some e) :
    ∃ l, s.iter col = some l ∧
      l.Pairwise (fun p q => keyLe p.1 q.1 = true) ∧
      (∀ k v, (k, KeyState.Insert v) ∈ s.overlay.getD (to_overlay_column col) [] →
        (k, v) ∈ l) ∧
      (∀ p, p ∈ e.colData col → p ∈ l) ∧
      (∀ p, p ∈ l →
        (p.1, KeyState.Insert p.2) ∈ s.overlay.getD (to_overlay_column col) [] ∨
        p ∈ e.colData col) := by
  have hiter : s.iter col = some (interleave_ordered
      (sortPairs ((s.overlay.getD (to_overlay_column col) []).filterMap (fun kv =>
        match kv.2 with
        | KeyState.Insert v => some (kv.1, v)
        | KeyState.Delete => none)))
      (e.scan col)) := by
    rw [DBState.iter, hopen]
  refine ⟨_, hiter, ?_, ?_, ?_, ?_⟩
  · exact (interleave_ordered_pairwise (sortPairs_pairwise _)
      (sortPairs_pairwise _)).imp pairLe_imp_keyLe
  · intro k v hkv
    have hmem : (k, v) ∈ (s.overlay.getD (to_overlay_column col) []).filterMap (fun kv =>
        match kv.2 with
        | KeyState.Insert v => some (kv.1, v)
        | KeyState.Delete => none) :=
      List.mem_filterMap.mpr ⟨(k, KeyState.Insert v), hkv, rfl⟩
    exact (interleave_ordered_perm _ _).mem_iff.mpr
      (List.mem_append_left _ (mem_sortPairs.mpr hmem))
  · intro p hp
    exact (interleave_ordered_perm _ _).mem_iff.mpr
      (List.mem_append_right _ (mem_sortPairs.mpr hp))
  · intro p hp
    rcases List.mem_append.mp ((interleave_ordered_perm _ _).mem_iff.mp hp) with h | h
    · left
      rcases List.mem_filterMap.mp (mem_sortPairs.mp h) with ⟨a, ha, hfa⟩
      rcases a with ⟨ak, ast⟩
      cases ast with
      | Insert v =>
          simp only [Option.some_inj] at hfa
          rw [← hfa]
          exact ha
      | Delete => cases hfa
    · right
      exact mem_sortPairs.mp h

/-- Witness for the amended C2 on `exOverlayShadow`. -/
theorem iter_merges_overlay_inserts_with_engine_scan_witness :
    ∃ l, exOverlayShadow.iter none = some l ∧
      l.Pairwise (fun p q => keyLe p.1 q.1 = true) ∧
      (∀ k v, (k, KeyState.Insert v) ∈ exOverlayShadow.overlay.getD (to_overlay_column none) [] →
        (k, v) ∈ l) ∧
      (∀ p, p ∈ Engine.colData { default_col := [([1], [3])], cfs := [], failure := none } none →
        p ∈ l) ∧
      (∀ p, p ∈ l →
        (p.1, KeyState.Insert p.2) ∈ exOverlayShadow.overlay.getD (to_overlay_column none) [] ∨
        p ∈ Engine.colData { default_col := [([1], [3])], cfs := [], failure := none } none) :=
  iter_merges_overlay_inserts_with_engine_scan exOverlayShadow
    { default_col := [([1], [3])], cfs := [], failure := none } none rfl

/-- An open database whose only persisted key (`[2]`) is at-or-after the
probe position `[1, 5]` in byte order but shorter than that probe. -/
def exShortKey : DBState :=
  { db := some { default_col := [([2], [9])], cfs := [], failure := none },
    overlay := [[]], flushing := [[]], flushing_lock := false,
    corruption_marker := false }

/-- C10: `get_by_prefix` panics rather than returning absent when the first
persisted key at or after the probe position is shorter than the probe: the
comparison `k[0 .. prefix.len()]` slices the key out of bounds instead of
concluding there is no match.  Here the engine holds only key `[2]`, the
probe is `[1, 5]`, the scan starts at `[2]` (since `[1, 5] ≤ [2]`), and the
two-byte slice of the one-byte key is out of bounds. -/
theorem get_by_prefix_panics_on_short_key :
    DBState.get_by_prefix exShortKey none [1, 5] = PResult.panics := by
  rw [ DBState.get_by_prefix]
  simp only [exShortKey]
  simp [ DBState.iter_from_prefix, interleave_ordered, List.merge, Engine.scan,
    Engine.colData, sortPairs, insertSorted, keyLe, keyLt]
